import Mathlib

/-!
Verification of the gradient canonicalization, analytic-segment derivation and
lookup-table/cache subsystem of `src/shaders/gradients/SkGradientShader.cpp`.

Scalars (`SkScalar`, `float`) are modelled as exact rationals `ℚ`; machine
floating-point rounding is abstracted away, but every comparison, clamp,
tolerance check and coefficient formula follows the source line by line.
-/

namespace SkGradient

/-- `SkColor4f`: four float channels (r, g, b, a), modelled over `ℚ`. -/
structure Color4f where
  r : ℚ
  g : ℚ
  b : ℚ
  a : ℚ
deriving DecidableEq, Repr

instance : Inhabited Color4f := ⟨⟨0, 0, 0, 0⟩⟩

/-- `SkShader::TileMode` (clamp / repeat / mirror / decal). -/
inductive TileMode where
  | clamp
  | repeat
  | mirror
  | decal
deriving DecidableEq, Repr

/-- Componentwise subtraction of colors (`Sk4f` operator-). -/
def csub (x y : Color4f) : Color4f := ⟨x.r - y.r, x.g - y.g, x.b - y.b, x.a - y.a⟩

/-- Componentwise addition of colors (`Sk4f` operator+). -/
def cadd (x y : Color4f) : Color4f := ⟨x.r + y.r, x.g + y.g, x.b + y.b, x.a + y.a⟩

/-- Scale every channel by a scalar (`Sk4f` times a splatted scalar). -/
def cscale (q : ℚ) (x : Color4f) : Color4f := ⟨q * x.r, q * x.g, q * x.b, q * x.a⟩

/-- `F*t + B`, componentwise: evaluation of a scale/bias segment at parameter t. -/
def scaleAdd (F : Color4f) (t : ℚ) (B : Color4f) : Color4f :=
  ⟨F.r * t + B.r, F.g * t + B.g, F.b * t + B.b, F.a * t + B.a⟩

/-- The all-zero color, `SkPM4f::FromPremulRGBA(0,0,0,0)`. -/
def zeroColor : Color4f := ⟨0, 0, 0, 0⟩

/-- `SkColor4f::premul()`: multiply r,g,b by alpha, keep alpha. -/
def premulColor (c : Color4f) : Color4f := ⟨c.r * c.a, c.g * c.a, c.b * c.a, c.a⟩

/-- `SkTMin(a, b)` (`b < a ? b : a`). -/
def tMin (a b : ℚ) : ℚ := if b < a then b else a

/-- `SkTMax(a, b)` (`b < a ? a : b`). -/
def tMax (a b : ℚ) : ℚ := if b < a then a else b

/-- `SkScalarPin(x, lo, hi) = SkTMax(lo, SkTMin(x, hi))`. -/
def skPin (x lo hi : ℚ) : ℚ := tMax lo (tMin x hi)

/-- `SkScalarAbs` (fabsf). -/
def skAbs (x : ℚ) : ℚ := if x < 0 then -x else x

/-- `SK_ScalarNearlyZero = 1 / (1 << 12)`, the default tolerance. -/
def nearlyZero : ℚ := 1 / 4096

/-- `SkScalarNearlyEqual(x, y)` with the default tolerance. -/
def nearlyEqual (x y : ℚ) : Bool := decide (skAbs (x - y) ≤ nearlyZero)

/-- Raw constructor input: `SkGradientShaderBase::Descriptor` (the fields this
core reads: colors, optional positions, tile mode, gradient flags). -/
structure Descriptor where
  colors : List Color4f
  pos : Option (List ℚ)
  tileMode : TileMode
  gradFlags : Nat
deriving Repr

/-- One iteration's emitted position in the constructor's monotonicity walk
(`SkGradientShader.cpp:193`): `curr = (i == desc.fCount) ? 1
: SkScalarPin(desc.fPos[i], prev, 1)`. -/
def currOf (fCount : Nat) (p : List ℚ) (i : Nat) (prev : ℚ) : ℚ :=
  if i = fCount then 1 else skPin (p.getD i 0) prev 1

/-- The position-walk loop body of the constructor (`SkGradientShader.cpp:191-197`),
emitting one pinned position per index and threading `prev`. -/
def walkFrom (fCount : Nat) (p : List ℚ) : List (Nat) → ℚ → List ℚ
  | [], _ => []
  | i :: rest, prev =>
    let curr := currOf fCount p i prev
    curr :: walkFrom fCount p rest curr

/-- The uniform-stop tracking of the same loop (`SkGradientShader.cpp:194`):
`uniformStops &= SkScalarNearlyEqual(uniformStep, curr - prev)`. -/
def walkUniformFrom (fCount : Nat) (p : List ℚ) (uniformStep : ℚ) :
    List Nat → ℚ → Bool
  | [], _ => true
  | i :: rest, prev =>
    let curr := currOf fCount p i prev
    nearlyEqual uniformStep (curr - prev) && walkUniformFrom fCount p uniformStep rest curr

/-- The index range the constructor's position loop visits:
`startIndex = dummyFirst ? 0 : 1`, running to `desc.fCount + dummyLast - 1`. -/
def walkIndices (count : Nat) (dummyFirst dummyLast : Bool) : List Nat :=
  let startIndex := if dummyFirst then 0 else 1
  let total := count + (if dummyLast then 1 else 0)
  List.range' startIndex (total - startIndex)

/-- The full emitted canonical position sequence of the constructor
(`SkGradientShader.cpp:181-197`): a forced leading 0 followed by the walked,
pinned positions. `count` is the caller's color count, `p` the caller's
position array. -/
def emittedPositions (count : Nat) (p : List ℚ) : List ℚ :=
  let dummyFirst : Bool := decide (p.getD 0 0 ≠ 0)
  let dummyLast : Bool := decide (p.getD (count - 1) 0 ≠ 1)
  0 :: walkFrom count p (walkIndices count dummyFirst dummyLast) 0

/-- The uniform-stops verdict of the constructor's walk
(`SkGradientShader.cpp:189-200`): `uniformStep = desc.fPos[startIndex] - 0`. -/
def emittedUniform (count : Nat) (p : List ℚ) : Bool :=
  let dummyFirst : Bool := decide (p.getD 0 0 ≠ 0)
  let dummyLast : Bool := decide (p.getD (count - 1) 0 ≠ 1)
  let startIndex := if dummyFirst then 0 else 1
  let uniformStep := p.getD startIndex 0 - 0
  walkUniformFrom count p uniformStep (walkIndices count dummyFirst dummyLast) 0

/-- The canonical gradient state stored by `SkGradientShaderBase`:
`fOrigColors4f`, `fOrigPos`, `fColorsAreOpaque`, `fTileMode`, `fGradFlags`. -/
structure CanonicalGradient where
  colors : List Color4f
  origPos : Option (List ℚ)
  colorsAreOpaque : Bool
  tileMode : TileMode
  gradFlags : Nat
deriving Repr

/-- The `SkGradientShaderBase` constructor (`SkGradientShader.cpp:127-204`):
inserts dummy boundary colors when the supplied first/last positions are not
exactly 0/1, walks positions forcing monotonicity and bracketing, collapses
uniformly spaced stops to an implicit (`none`) position array, and records
whether every caller color has alpha exactly 1. -/
def canonicalize (desc : Descriptor) : CanonicalGradient :=
  let count := desc.colors.length
  let allOpaque := desc.colors.all (fun c => c.a == 1)
  match desc.pos with
  | none =>
    { colors := desc.colors
      origPos := none
      colorsAreOpaque := allOpaque
      tileMode := desc.tileMode
      gradFlags := desc.gradFlags }
  | some p =>
    let dummyFirst : Bool := decide (p.getD 0 0 ≠ 0)
    let dummyLast : Bool := decide (p.getD (count - 1) 0 ≠ 1)
    let colors' :=
      (if dummyFirst then [desc.colors.getD 0 default] else []) ++ desc.colors ++
        (if dummyLast then [desc.colors.getD (count - 1) default] else [])
    { colors := colors'
      origPos := if emittedUniform count p then none else some (emittedPositions count p)
      colorsAreOpaque := allOpaque
      tileMode := desc.tileMode
      gradFlags := desc.gradFlags }

/-- `SkGradientShaderBase::isOpaque()` (`SkGradientShader.cpp:421-423`):
`fColorsAreOpaque && getTileMode() != kDecal_TileMode`. -/
def isOpaque (g : CanonicalGradient) : Bool :=
  g.colorsAreOpaque && !(g.tileMode == TileMode.decal)

/-- `ColorStopOptimizer` (`SkGradientShader.cpp:662-703`): on a raw 3-stop
input whose positions nearly match `{0,0,1}` (resp. `{0,1,1}`), drop the
leftmost (resp. rightmost) color/stop when repeat/mirror tiling is active or
the duplicated-adjacent colors are equal. Returns the surviving
(colors, positions) prefix views. -/
def colorStopOptimize (colors : List Color4f) (pos : Option (List ℚ))
    (mode : TileMode) : List Color4f × Option (List ℚ) :=
  match pos with
  | none => (colors, none)
  | some p =>
    if colors.length ≠ 3 then (colors, some p)
    else if nearlyEqual (p.getD 0 0) 0 && nearlyEqual (p.getD 1 0) 0 &&
            nearlyEqual (p.getD 2 0) 1 then
      if mode == TileMode.repeat || mode == TileMode.mirror ||
          colors.getD 0 default == colors.getD 1 default then
        (colors.drop 1, some (p.drop 1))
      else (colors, some p)
    else if nearlyEqual (p.getD 0 0) 0 && nearlyEqual (p.getD 1 0) 1 &&
            nearlyEqual (p.getD 2 0) 1 then
      if mode == TileMode.repeat || mode == TileMode.mirror ||
          colors.getD 1 default == colors.getD 2 default then
        (colors.take 2, some (p.take 2))
      else (colors, some p)
    else (colors, some p)

/-- `prepareColor` in `onAppendStages` (`SkGradientShader.cpp:320-324`): premultiply
when the gradient interpolates in premul space, else keep the straight color.
(The color-space transform step is the identity here: source and destination
spaces equal, per `SkColor4fXformer`.) -/
def prepareColor (premulGrad : Bool) (c : Color4f) : Color4f :=
  if premulGrad then premulColor c else c

/-- One derived stop of the arbitrary-position gradient context
(`SkJumper_GradientCtx`): the leading constant color (no `ts` written), a
scale/bias pair recording the `(t_l, t_r)` span it was derived from, or the
trailing constant color at its position. -/
inductive GradStop where
  | headConst (color : Color4f)
  | lerp (tl tr : ℚ) (F B : Color4f)
  | tailConst (t : ℚ) (color : Color4f)
deriving DecidableEq, Repr

/-- `init_stop_pos` (`SkGradientShader.cpp:259-276`), with the division it
performs made explicit: `none` exactly when the stop pair is zero-width
(`t_r - t_l = 0`), else `F = (c_r - c_l)/(t_r - t_l)`, `B = c_l - F*t_l`
per channel. -/
def init_stop_pos (tl tr : ℚ) (cl cr : Color4f) : Option GradStop :=
  if tr - tl = 0 then none
  else
    let F : Color4f := ⟨(cr.r - cl.r) / (tr - tl), (cr.g - cl.g) / (tr - tl),
                        (cr.b - cl.b) / (tr - tl), (cr.a - cl.a) / (tr - tl)⟩
    let B : Color4f := ⟨cl.r - F.r * tl, cl.g - F.g * tl, cl.b - F.b * tl, cl.a - F.a * tl⟩
    some (GradStop.lerp tl tr F B)

/-- The stop-pair loop of the arbitrary-position branch of `onAppendStages`
(`SkGradientShader.cpp:387-400`): emit a segment only when `t_l < t_r`, always
thread `t_l := t_r`, `c_l := c_r`, and finish with the trailing constant
stop. -/
def goPositioned (premulGrad : Bool) (colors : List Color4f) (pos : List ℚ) :
    List Nat → ℚ → Color4f → Option (List GradStop)
  | [], t_l, c_l => some [GradStop.tailConst t_l c_l]
  | i :: rest, t_l, c_l =>
    let t_r := pos.getD (i + 1) 0
    let c_r := prepareColor premulGrad (colors.getD (i + 1) default)
    if t_l < t_r then
      match init_stop_pos t_l t_r c_l c_r,
          goPositioned premulGrad colors pos rest t_r c_r with
      | some s, some l => some (s :: l)
      | _, _ => none
    else goPositioned premulGrad colors pos rest t_r c_r

/-- The arbitrary-position branch of `onAppendStages`
(`SkGradientShader.cpp:364-403`): trim the dummy boundary stops by color
comparison at the two ends, emit the leading constant stop, then walk the
remaining pairs. -/
def buildPositioned (premulGrad : Bool) (colors : List Color4f) (pos : List ℚ) :
    Option (List GradStop) :=
  let n := colors.length
  let firstStop := if n > 2 then
      (if colors.getD 0 default ≠ colors.getD 1 default then 0 else 1)
    else 0
  let lastStop := if n > 2 then
      (if colors.getD (n - 2) default ≠ colors.getD (n - 1) default then n - 1 else n - 2)
    else 1
  let t0 := pos.getD firstStop 0
  let c0 := prepareColor premulGrad (colors.getD firstStop default)
  (goPositioned premulGrad colors pos (List.range' firstStop (lastStop - firstStop)) t0 c0).map
    (fun l => GradStop.headConst c0 :: l)

/-- `init_stop_evenly` (`SkGradientShader.cpp:239-255`):
`F = (c_r - c_l) * gapCount`, `B = c_l - F * (stop/gapCount)` per channel. -/
def init_stop_evenly (gapCount : ℚ) (stop : Nat) (cl cr : Color4f) :
    Color4f × Color4f :=
  let F : Color4f := ⟨(cr.r - cl.r) * gapCount, (cr.g - cl.g) * gapCount,
                      (cr.b - cl.b) * gapCount, (cr.a - cl.a) * gapCount⟩
  let B : Color4f := ⟨cl.r - F.r * ((stop : ℚ) / gapCount),
                      cl.g - F.g * ((stop : ℚ) / gapCount),
                      cl.b - F.b * ((stop : ℚ) / gapCount),
                      cl.a - F.a * ((stop : ℚ) / gapCount)⟩
  (F, B)

/-- The loop of the evenly-distributed branch (`SkGradientShader.cpp:354-360`):
one scale/bias pair per consecutive pair, then the final constant stop
(`add_const_color`: scale 0, bias the last color). -/
def goEvenly (premulGrad : Bool) (colors : List Color4f) (gapCount : ℚ) :
    List Nat → Color4f → List (Color4f × Color4f)
  | [], c_l => [(zeroColor, c_l)]
  | i :: rest, c_l =>
    let c_r := prepareColor premulGrad (colors.getD (i + 1) default)
    init_stop_evenly gapCount i c_l c_r :: goEvenly premulGrad colors gapCount rest c_r

/-- The evenly-distributed branch of `onAppendStages`
(`SkGradientShader.cpp:348-363`): `gapCount = stopCount - 1`. -/
def buildEvenly (premulGrad : Bool) (colors : List Color4f) : List (Color4f × Color4f) :=
  let stopCount := colors.length
  let gapCount : ℚ := (stopCount : ℚ) - 1
  goEvenly premulGrad colors gapCount (List.range (stopCount - 1))
    (prepareColor premulGrad (colors.getD 0 default))

/-- The two-stop fast path of `onAppendStages` (`SkGradientShader.cpp:326-336`):
`f_and_b[0] = c_r - c_l`, `f_and_b[1] = c_l` on the prepared colors. -/
def twoStopFB (premulGrad : Bool) (c0 c1 : Color4f) : Color4f × Color4f :=
  let c_l := prepareColor premulGrad c0
  let c_r := prepareColor premulGrad c1
  (csub c_r c_l, c_l)

/-- Modelled from the spec (§3 EvaluationSegment): `color(t) = scale * t + bias`
— evaluation of one scale/bias pair at `t` (the pixel-stage interpreters
themselves live outside this translation unit). -/
def evalPair (fb : Color4f × Color4f) (t : ℚ) : Color4f := scaleAdd fb.1 t fb.2

/-- Modelled from the spec (§4.2 uniform general path): the evenly-spaced
consumer selects the segment whose `[i/(n-1), (i+1)/(n-1))` interval holds
`t`, clamping to the final constant stop at and beyond `t = 1`. -/
def evenStopIndex (n : Nat) (t : ℚ) : Nat :=
  min (Int.toNat ⌊t * ((n : ℚ) - 1)⌋) (n - 1)

/-- Evaluation of the evenly-spaced gradient stage at `t` (built from the
source's coefficients, with the spec-modelled segment search). -/
def evalEvenly (premulGrad : Bool) (colors : List Color4f) (t : ℚ) : Color4f :=
  evalPair ((buildEvenly premulGrad colors).getD (evenStopIndex colors.length t)
    (zeroColor, zeroColor)) t

/-- Evaluation of the two-stop fast-path stage at `t`. -/
def evalTwoStop (premulGrad : Bool) (c0 c1 : Color4f) (t : ℚ) : Color4f :=
  evalPair (twoStopFB premulGrad c0 c1) t

/-- Modelled from the spec: `SkGradientShaderBase::getPos(i)` (declared in
`SkGradientShaderPriv.h`, which is not part of this translation unit) — the
stored canonical position when positions are explicit, else the implicit
evenly spaced `i / (colorCount - 1)`. -/
def getPos (g : CanonicalGradient) (i : Nat) : ℚ :=
  match g.origPos with
  | some p => p.getD i 0
  | none => (i : ℚ) / ((g.colors.length : ℚ) - 1)

/-- The texel index of `initLinearBitmap` (`SkGradientShader.cpp:525-526`):
`SkTMin(pos * 256, 255)` truncated to int, i.e. `min(floor(pos * 256), 255)`
for the non-negative canonical positions. -/
def texelIndex (p : ℚ) : Nat := min (Int.toNat ⌊p * 256⌋) 255

/-- The value a texel receives (`SkGradientShader.cpp:512-518`): with premul
interpolation the interpolant is already premultiplied and written as is,
otherwise `writeUnpremulPixel` premultiplies at write time. The final
8-bit/half-float channel encoding is outside this translation unit and not
modelled. -/
def writePixelVal (interpInPremul : Bool) (c : Color4f) : Color4f :=
  if interpInPremul then c else premulColor c

/-- The inner texel loop (`SkGradientShader.cpp:540-543`): write `k` texels
starting at `idx`, advancing the interpolant by `delta` after each write. -/
def writeRun (interp : Bool) : Nat → Nat → Color4f → Color4f → List Color4f → List Color4f
  | 0, _, _, _, table => table
  | k + 1, idx, c, delta, table =>
    writeRun interp k (idx + 1) (cadd c delta) delta (table.set idx (writePixelVal interp c))

/-- The outer stop loop of `initLinearBitmap` (`SkGradientShader.cpp:520-546`),
returning the final `prevIndex` and the table. A run fires only when the texel
index advances; `prevIndex` is updated unconditionally. -/
def bitmapLoop (g : CanonicalGradient) (interp : Bool) :
    List Nat → Nat → List Color4f → Nat × List Color4f
  | [], prevIndex, table => (prevIndex, table)
  | i :: rest, prevIndex, table =>
    let nextIndex := texelIndex (getPos g i)
    if prevIndex < nextIndex then
      let c0 := g.colors.getD (i - 1) default
      let c1 := g.colors.getD i default
      let c0p := if interp then premulColor c0 else c0
      let c1p := if interp then premulColor c1 else c1
      let delta := cscale (1 / ((nextIndex : ℚ) - (prevIndex : ℚ))) (csub c1p c0p)
      bitmapLoop g interp rest nextIndex
        (writeRun interp (nextIndex - prevIndex + 1) prevIndex c0p delta table)
    else bitmapLoop g interp rest nextIndex table

/-- `SkGradientShaderBase::initLinearBitmap` (`SkGradientShader.cpp:492-548`):
the 256-texel lookup table (texel values before channel encoding). -/
def initLinearBitmap (g : CanonicalGradient) : List Color4f :=
  let interp := g.gradFlags.testBit 0
  (bitmapLoop g interp (List.range' 1 (g.colors.length - 1)) 0
    (List.replicate 256 default)).2

/-- One 32-bit record of the bitmap-cache key (`SkGradientShader.cpp:560-581`):
the color count, a raw color value, a position's float bits, the gradient
flags, or the pixel color type. -/
inductive KeyWord where
  | count (n : Nat)
  | color (c : Color4f)
  | posBits (q : ℚ)
  | flagWord (f : Nat)
  | colorTypeWord (t : Nat)
deriving DecidableEq, Repr

/-- The cache key built by `getGradientTableBitmap`
(`SkGradientShader.cpp:560-581`): `[numColors + colors[] + {positions[]} +
flags + colorType]`, where the positions (stops `1..n-1`, via `getPos`) are
included only when `fColorCount > 2`. -/
def buildGradientKey (g : CanonicalGradient) (colors : List Color4f) (colorType : Nat) :
    List KeyWord :=
  let n := g.colors.length
  [KeyWord.count n] ++ colors.map KeyWord.color ++
    (if n > 2 then (List.range' 1 (n - 1)).map (fun i => KeyWord.posBits (getPos g i))
     else []) ++
    [KeyWord.flagWord g.gradFlags, KeyWord.colorTypeWord colorType]

/-- Modelled from the spec (§4.5, §3 GradientTableCache; the backing
`SkGradientBitmapCache` lives in a separate file): lookup in the
association-list cache, newest entry first. -/
def cacheFind (entries : List (List KeyWord × List Color4f)) (k : List KeyWord) :
    Option (List Color4f) :=
  (entries.find? (fun e => decide (e.1 = k))).map (fun e => e.2)

/-- Modelled from the spec (§4.5): insert at the front, evicting the oldest
entry when the capacity `MAX_NUM_CACHED_GRADIENT_BITMAPS = 32` is exceeded. -/
def cacheAdd (entries : List (List KeyWord × List Color4f)) (k : List KeyWord)
    (v : List Color4f) : List (List KeyWord × List Color4f) :=
  let entries' := (k, v) :: entries
  if entries'.length > 32 then entries'.dropLast else entries'

/-- Modelled from the spec (§4.5): `findOrBuild` under the global cache lock —
on hit return the cached table (no rebuild, flag `false`); on miss build,
insert, and return the new table (flag `true`). -/
def findOrBuild (entries : List (List KeyWord × List Color4f)) (k : List KeyWord)
    (build : Unit → List Color4f) :
    List (List KeyWord × List Color4f) × List Color4f × Bool :=
  match cacheFind entries k with
  | some t => (entries, t, false)
  | none =>
    let t := build ()
    (cacheAdd entries k t, t, true)

/-- Concrete opaque demo colors for the concrete-instance theorems. -/
def cRED : Color4f := ⟨1, 0, 0, 1⟩

def cGREEN : Color4f := ⟨0, 1, 0, 1⟩

def cBLUE : Color4f := ⟨0, 0, 1, 1⟩

def cYELLOW : Color4f := ⟨1, 1, 0, 1⟩

def cCYAN : Color4f := ⟨0, 1, 1, 1⟩


/-- The canonical gradient arising from raw colors `{R,G,B}` with positions
`{0,0,1}` (a hard stop at position 0), as built by the constructor. -/
def gHard : CanonicalGradient :=
  ⟨[cRED, cGREEN, cBLUE], some [0, 0, 1], true, TileMode.clamp, 0⟩

/-- A two-stop evenly spaced canonical gradient. -/
def gUniform2 : CanonicalGradient := ⟨[cRED, cBLUE], none, true, TileMode.clamp, 0⟩

/-! ### Order facts about the pinning primitives -/

theorem le_tMax_left (a b : ℚ) : a ≤ tMax a b := by
  unfold tMax; split
  · exact le_refl a
  · next h => exact le_of_not_lt h

theorem tMax_le {a b c : ℚ} (ha : a ≤ c) (hb : b ≤ c) : tMax a b ≤ c := by
  unfold tMax; split
  · exact ha
  · exact hb

theorem tMin_le_right (a b : ℚ) : tMin a b ≤ b := by
  unfold tMin; split
  · exact le_refl b
  · next h => exact le_of_not_lt h

theorem le_currOf {fCount : Nat} {p : List ℚ} {i : Nat} {prev : ℚ} (h : prev ≤ 1) :
    prev ≤ currOf fCount p i prev := by
  unfold currOf; split
  · exact h
  · exact le_tMax_left _ _

theorem currOf_le_one {fCount : Nat} {p : List ℚ} {i : Nat} {prev : ℚ} (h : prev ≤ 1) :
    currOf fCount p i prev ≤ 1 := by
  unfold currOf; split
  · exact le_refl 1
  · exact tMax_le h (tMin_le_right _ _)

theorem currOf_eq_one {fCount : Nat} {p : List ℚ} {i : Nat} {prev : ℚ} (h : prev ≤ 1)
    (hi : i = fCount ∨ p.getD i 0 = 1) : currOf fCount p i prev = 1 := by
  unfold currOf; split
  · rfl
  · next hne =>
    rcases hi with hi | hi
    · exact absurd hi hne
    · rw [hi]
      unfold skPin tMin
      rw [if_neg (lt_irrefl 1)]
      unfold tMax
      rw [if_neg (not_lt.mpr h)]

/-! ### Invariants of the constructor's position walk -/

theorem walkFrom_chain (fCount : Nat) (p : List ℚ) :
    ∀ (idxs : List Nat) (prev : ℚ), prev ≤ 1 →
      List.Chain (· ≤ ·) prev (walkFrom fCount p idxs prev)
  | [], _, _ => List.Chain.nil
  | i :: rest, prev, h => by
    rw [walkFrom]
    exact List.Chain.cons (le_currOf h) (walkFrom_chain fCount p rest _ (currOf_le_one h))

theorem walkFrom_le_one (fCount : Nat) (p : List ℚ) :
    ∀ (idxs : List Nat) (prev : ℚ), prev ≤ 1 →
      ∀ x ∈ walkFrom fCount p idxs prev, x ≤ 1
  | [], _, _ => by intro x hx; simp [walkFrom] at hx
  | i :: rest, prev, h => by
    intro x hx
    rw [walkFrom] at hx
    rcases List.mem_cons.mp hx with hx | hx
    · rw [hx]; exact currOf_le_one h
    · exact walkFrom_le_one fCount p rest _ (currOf_le_one h) x hx

/-- The last element of a list, or a default when empty (helper for reasoning
about the running `prev` of the position walk). -/
def lastOr (l : List ℚ) (d : ℚ) : ℚ := l.getLast?.getD d

theorem lastOr_nil (d : ℚ) : lastOr [] d = d := rfl

theorem lastOr_cons (x : ℚ) (l : List ℚ) (d : ℚ) : lastOr (x :: l) d = lastOr l x := by
  cases l with
  | nil => rfl
  | cons y ys =>
    unfold lastOr
    rw [List.getLast?_cons_cons,
      List.getLast?_eq_getLast_of_ne_nil (List.cons_ne_nil y ys)]
    rfl

theorem walkFrom_lastOr_le_one (fCount : Nat) (p : List ℚ) :
    ∀ (idxs : List Nat) (prev : ℚ), prev ≤ 1 →
      lastOr (walkFrom fCount p idxs prev) prev ≤ 1
  | [], _, h => h
  | i :: rest, prev, h => by
    rw [walkFrom, lastOr_cons]
    exact walkFrom_lastOr_le_one fCount p rest _ (currOf_le_one h)

theorem walkFrom_append (fCount : Nat) (p : List ℚ) :
    ∀ (l1 l2 : List Nat) (prev : ℚ),
      walkFrom fCount p (l1 ++ l2) prev =
        walkFrom fCount p l1 prev ++
          walkFrom fCount p l2 (lastOr (walkFrom fCount p l1 prev) prev)
  | [], l2, prev => by simp [walkFrom, lastOr_nil]
  | i :: rest, l2, prev => by
    rw [List.cons_append, walkFrom, walkFrom, walkFrom_append fCount p rest l2,
      List.cons_append, lastOr_cons]

theorem walkFrom_range'_getLast (count : Nat) (p : List ℚ) (s k : Nat) (prev : ℚ)
    (hprev : prev ≤ 1) (hk : 1 ≤ k)
    (hend : s + k - 1 = count ∨ p.getD (s + k - 1) 0 = 1) :
    (prev :: walkFrom count p (List.range' s k) prev).getLast? = some 1 := by
  obtain ⟨m, rfl⟩ : ∃ m, k = m + 1 := ⟨k - 1, (Nat.succ_pred_eq_of_pos hk).symm⟩
  rw [List.range'_1_concat, walkFrom_append]
  rw [show prev :: (walkFrom count p (List.range' s m) prev ++
        walkFrom count p [s + m] (lastOr (walkFrom count p (List.range' s m) prev) prev)) =
      (prev :: walkFrom count p (List.range' s m) prev) ++
        walkFrom count p [s + m] (lastOr (walkFrom count p (List.range' s m) prev) prev)
    from rfl]
  rw [walkFrom, walkFrom, List.getLast?_concat]
  have hle := walkFrom_lastOr_le_one count p (List.range' s m) prev hprev
  rw [currOf_eq_one hle (by simpa [Nat.add_sub_cancel] using hend)]

/-- C1: for every raw input with a supplied positions array and `count ≥ 2`,
the canonical position sequence emitted by the `SkGradientShaderBase`
constructor starts at exactly 0, ends at exactly 1, and is non-decreasing
(each walked position is pinned to `[prev, 1]`, the first is forced to 0 and
the last to 1). -/
theorem claim_C1_bracketing (count : Nat) (p : List ℚ) (hc : 2 ≤ count) :
    (emittedPositions count p).head? = some 0 ∧
    (emittedPositions count p).getLast? = some 1 ∧
    List.Chain' (· ≤ ·) (emittedPositions count p) := by
  have hcpos : 0 < count := lt_of_lt_of_le (by norm_num) hc
  refine ⟨rfl, ?_, ?_⟩
  · show (0 :: walkFrom count p
      (walkIndices count (decide (p.getD 0 0 ≠ 0)) (decide (p.getD (count - 1) 0 ≠ 1))) 0).getLast?
      = some 1
    unfold walkIndices
    cases hdf : decide (p.getD 0 0 ≠ 0) <;> cases hdl : decide (p.getD (count - 1) 0 ≠ 1)
    · -- no dummy first, no dummy last: s = 1, k = count - 1
      have h2 : p.getD (count - 1) 0 = 1 := by simpa using of_decide_eq_false hdl
      simp only [Bool.false_eq_true, if_false, Nat.add_zero]
      refine walkFrom_range'_getLast count p 1 (count - 1) 0 (by norm_num)
        (by omega) (Or.inr ?_)
      have : 1 + (count - 1) - 1 = count - 1 := by omega
      rw [this]; exact h2
    · simp only [Bool.false_eq_true, if_false, if_true]
      refine walkFrom_range'_getLast count p 1 (count + 1 - 1) 0 (by norm_num)
        (by omega) (Or.inl (by omega))
    · have h2 : p.getD (count - 1) 0 = 1 := by simpa using of_decide_eq_false hdl
      simp only [Bool.false_eq_true, if_false, if_true, Nat.add_zero, Nat.sub_zero]
      refine walkFrom_range'_getLast count p 0 count 0 (by norm_num)
        (by omega) (Or.inr ?_)
      have : 0 + count - 1 = count - 1 := by omega
      rw [this]; exact h2
    · simp only [if_true, Nat.sub_zero]
      refine walkFrom_range'_getLast count p 0 (count + 1) 0 (by norm_num)
        (by omega) (Or.inl (by omega))
  · show List.Chain (· ≤ ·) 0 (walkFrom count p _ 0)
    exact walkFrom_chain count p _ 0 (by norm_num)

/-- Witness for C1 at the concrete input `count = 2`, `p = {0.3, 0.7}`. -/
theorem claim_C1_bracketing_witness :
    (emittedPositions 2 [3/10, 7/10]).head? = some 0 ∧
    (emittedPositions 2 [3/10, 7/10]).getLast? = some 1 ∧
    List.Chain' (· ≤ ·) (emittedPositions 2 [3/10, 7/10]) :=
  claim_C1_bracketing 2 [3/10, 7/10] (by norm_num)

/-- C2: the constructor discards the position array when every consecutive gap
nearly equals the first gap: `{0, 0.25, 0.5, 0.75, 1}` canonicalizes to
`positions = none`, while the perturbed `{0, 0.24, 0.5, 0.75, 1}` retains an
explicit position array. -/
theorem claim_C2_uniform_detection :
    (canonicalize ⟨[cRED, cGREEN, cBLUE, cYELLOW, cCYAN],
      some [0, 1/4, 1/2, 3/4, 1], TileMode.clamp, 0⟩).origPos = none ∧
    (canonicalize ⟨[cRED, cGREEN, cBLUE, cYELLOW, cCYAN],
      some [0, 6/25, 1/2, 3/4, 1], TileMode.clamp, 0⟩).origPos =
      some [0, 6/25, 1/2, 3/4, 1] := by
  constructor <;>
    norm_num [canonicalize, emittedUniform, emittedPositions, walkIndices, walkUniformFrom,
      walkFrom, currOf, skPin, tMin, tMax, nearlyEqual, skAbs, nearlyZero, List.range']

/-- C3: dummy boundary insertion — colors `{A,B}` with positions `{0.3, 0.7}`
canonicalize to 4 colors `{A,A,B,B}` with positions `{0, 0.3, 0.7, 1}`. -/
theorem claim_C3_dummy_insertion (A B : Color4f) (m : TileMode) (f : Nat) :
    (canonicalize ⟨[A, B], some [3/10, 7/10], m, f⟩).colors = [A, A, B, B] ∧
    (canonicalize ⟨[A, B], some [3/10, 7/10], m, f⟩).origPos =
      some [0, 3/10, 7/10, 1] := by
  constructor <;>
    norm_num [canonicalize, emittedUniform, emittedPositions, walkIndices, walkUniformFrom,
      walkFrom, currOf, skPin, tMin, tMax, nearlyEqual, skAbs, nearlyZero, List.range']

/-- C4 counterexample: raw colors `{R,G,B}` with positions `{0,0,1}` under
Clamp tiling are NOT reduced by `ColorStopOptimizer` when the first two colors
differ — the output still has the 3 original colors, not the claimed
`{G,B}`. -/
theorem claim_C4_counterexample :
    colorStopOptimize [cRED, cGREEN, cBLUE] (some [0, 0, 1]) TileMode.clamp =
      ([cRED, cGREEN, cBLUE], some [0, 0, 1]) ∧
    (colorStopOptimize [cRED, cGREEN, cBLUE] (some [0, 0, 1]) TileMode.clamp).1 ≠
      [cGREEN, cBLUE] := by
  constructor <;>
    norm_num [colorStopOptimize, nearlyEqual, skAbs, nearlyZero, cRED, cGREEN, cBLUE] <;>
    simp

/-- C4 amended: for 3 stops with positions `{0,0,1}`, the optimizer reduces to
the 2-stop gradient `{c1,c2}` (positions `{0,1}`) when repeat or mirror tiling
is active or the duplicated-adjacent colors are equal (`c0 = c1`); under Clamp
with distinct colors the input is kept unchanged. -/
theorem claim_C4_amended (c0 c1 c2 : Color4f) (mode : TileMode)
    (h : mode = TileMode.repeat ∨ mode = TileMode.mirror ∨ c0 = c1) :
    colorStopOptimize [c0, c1, c2] (some [0, 0, 1]) mode = ([c1, c2], some [0, 1]) := by
  rcases h with h | h | h <;> subst h <;>
    norm_num [colorStopOptimize, nearlyEqual, skAbs, nearlyZero]

/-- Witness for C4 amended at Repeat tiling with distinct colors. -/
theorem claim_C4_amended_witness :
    colorStopOptimize [cRED, cGREEN, cBLUE] (some [0, 0, 1]) TileMode.repeat =
      ([cGREEN, cBLUE], some [0, 1]) :=
  claim_C4_amended cRED cGREEN cBLUE TileMode.repeat (Or.inl rfl)

/-- C10: `isOpaque()` is true iff every caller stop color has alpha exactly 1
and the tile mode is not Decal; in particular an all-opaque gradient under
Decal tiling reports not-opaque. -/
theorem claim_C10_isOpaque (desc : Descriptor) :
    (isOpaque (canonicalize desc) = true ↔
      ((∀ c ∈ desc.colors, c.a = 1) ∧ desc.tileMode ≠ TileMode.decal)) ∧
    (desc.tileMode = TileMode.decal → isOpaque (canonicalize desc) = false) := by
  have hfields : (canonicalize desc).colorsAreOpaque =
      desc.colors.all (fun c => c.a == 1) ∧
      (canonicalize desc).tileMode = desc.tileMode := by
    cases hp : desc.pos <;> simp [canonicalize, hp]
  constructor
  · rw [isOpaque, hfields.1, hfields.2]
    simp [List.all_eq_true]
  · intro h
    rw [isOpaque, hfields.2, h]
    simp

/-- Witness for C10: opaque colors but Decal tiling → not opaque. -/
theorem claim_C10_isOpaque_witness :
    isOpaque (canonicalize ⟨[cRED, cBLUE], none, TileMode.decal, 0⟩) = false :=
  (claim_C10_isOpaque ⟨[cRED, cBLUE], none, TileMode.decal, 0⟩).2 rfl

/-! ### The positioned segment builder never divides by zero -/

theorem goPositioned_isSome (premulGrad : Bool) (colors : List Color4f) (pos : List ℚ) :
    ∀ (idxs : List Nat) (t_l : ℚ) (c_l : Color4f),
      (goPositioned premulGrad colors pos idxs t_l c_l).isSome = true
  | [], _, _ => rfl
  | i :: rest, t_l, c_l => by
    simp only [goPositioned]
    by_cases h : t_l < pos.getD (i + 1) 0
    · rw [if_pos h]
      have hne : pos.getD (i + 1) 0 - t_l ≠ 0 := sub_ne_zero_of_ne (ne_of_gt h)
      have hrec := goPositioned_isSome premulGrad colors pos rest (pos.getD (i + 1) 0)
        (prepareColor premulGrad (colors.getD (i + 1) default))
      rw [init_stop_pos, if_neg hne]
      cases hgo : goPositioned premulGrad colors pos rest (pos.getD (i + 1) 0)
          (prepareColor premulGrad (colors.getD (i + 1) default)) with
      | none => rw [hgo] at hrec; exact absurd hrec (by simp)
      | some l => rfl
    · rw [if_neg h]
      exact goPositioned_isSome premulGrad colors pos rest _ _

theorem goPositioned_lerp_lt (premulGrad : Bool) (colors : List Color4f) (pos : List ℚ) :
    ∀ (idxs : List Nat) (t_l : ℚ) (c_l : Color4f) (stops : List GradStop),
      goPositioned premulGrad colors pos idxs t_l c_l = some stops →
      ∀ tl tr F B, GradStop.lerp tl tr F B ∈ stops → tl < tr
  | [], t_l, c_l, stops, hgo => by
    intro tl tr F B hmem
    simp only [goPositioned, Option.some.injEq] at hgo
    rw [← hgo] at hmem
    simp at hmem
  | i :: rest, t_l, c_l, stops, hgo => by
    intro tl tr F B hmem
    simp only [goPositioned] at hgo
    by_cases h : t_l < pos.getD (i + 1) 0
    · rw [if_pos h] at hgo
      have hne : pos.getD (i + 1) 0 - t_l ≠ 0 := sub_ne_zero_of_ne (ne_of_gt h)
      rw [init_stop_pos, if_neg hne] at hgo
      cases hgo2 : goPositioned premulGrad colors pos rest (pos.getD (i + 1) 0)
          (prepareColor premulGrad (colors.getD (i + 1) default)) with
      | none => rw [hgo2] at hgo; exact absurd hgo (by simp)
      | some l =>
        rw [hgo2] at hgo
        simp only [Option.some.injEq] at hgo
        rw [← hgo] at hmem
        rcases List.mem_cons.mp hmem with hmem | hmem
        · cases hmem
          exact h
        · exact goPositioned_lerp_lt premulGrad colors pos rest _ _ l hgo2 tl tr F B hmem
    · rw [if_neg h] at hgo
      exact goPositioned_lerp_lt premulGrad colors pos rest _ _ stops hgo tl tr F B hmem

/-- C5: the positioned general path derives a divided segment only for stop
pairs with `t_l < t_r`: the builder (with its divisions made explicit) never
fails, every emitted `lerp` segment has a strictly positive width, and in
particular canonical positions `{0,0,1}` yield exactly one division-derived
segment, of width 1. -/
theorem claim_C5_hard_stop_skip (premulGrad : Bool) (colors : List Color4f)
    (pos : List ℚ) (stops : List GradStop) :
    (buildPositioned premulGrad colors pos).isSome = true ∧
    (buildPositioned premulGrad colors pos = some stops →
      ∀ tl tr F B, GradStop.lerp tl tr F B ∈ stops → tl < tr) ∧
    buildPositioned false [cRED, cGREEN, cBLUE] [0, 0, 1] =
      some [GradStop.headConst cRED,
            GradStop.lerp 0 1 ⟨0, -1, 1, 0⟩ ⟨0, 1, 0, 1⟩,
            GradStop.tailConst 1 cBLUE] := by
  refine ⟨?_, ?_, ?_⟩
  · simp only [buildPositioned, Option.isSome_map']
    exact goPositioned_isSome premulGrad colors pos _ _ _
  · intro hbp tl tr F B hmem
    simp only [buildPositioned, Option.map_eq_some'] at hbp
    rcases hbp with ⟨l, hgo, hl⟩
    rw [← hl] at hmem
    rcases List.mem_cons.mp hmem with hmem | hmem
    · exact absurd hmem (by simp)
    · exact goPositioned_lerp_lt premulGrad colors pos _ _ _ l hgo tl tr F B hmem
  · norm_num [buildPositioned, goPositioned, init_stop_pos, prepareColor,
      cRED, cGREEN, cBLUE, List.range']

/-- Witness for C5 at the concrete hard-stop input `{0,0,1}`. -/
theorem claim_C5_hard_stop_skip_witness :
    buildPositioned false [cRED, cGREEN, cBLUE] [0, 0, 1] =
      some [GradStop.headConst cRED,
            GradStop.lerp 0 1 ⟨0, -1, 1, 0⟩ ⟨0, 1, 0, 1⟩,
            GradStop.tailConst 1 cBLUE] ∧
    (0 : ℚ) < 1 :=
  ⟨(claim_C5_hard_stop_skip false [cRED, cGREEN, cBLUE] [0, 0, 1] []).2.2,
   (claim_C5_hard_stop_skip false [cRED, cGREEN, cBLUE] [0, 0, 1]
      [GradStop.headConst cRED, GradStop.lerp 0 1 ⟨0, -1, 1, 0⟩ ⟨0, 1, 0, 1⟩,
       GradStop.tailConst 1 cBLUE]).2.1
     ((claim_C5_hard_stop_skip false [cRED, cGREEN, cBLUE] [0, 0, 1] []).2.2)
     0 1 ⟨0, -1, 1, 0⟩ ⟨0, 1, 0, 1⟩
     (List.mem_cons_of_mem _ (List.mem_cons_self _ _))⟩

/-- C6: two-stop fast path equivalence — for any two stop colors with implicit
uniform spacing, the single two-stop segment (`scale = c1 - c0`, `bias = c0`)
evaluated at `t` equals the general evenly-spaced path's evaluation at the
same `t`, for each `t` in `{0, 1/4, 1/2, 3/4, 1}` (exactly, in ℚ). -/
theorem claim_C6_two_stop_equiv (premulGrad : Bool) (c0 c1 : Color4f) (t : ℚ)
    (ht : t ∈ ([0, 1/4, 1/2, 3/4, 1] : List ℚ)) :
    evalTwoStop premulGrad c0 c1 t = evalEvenly premulGrad [c0, c1] t := by
  have hb : buildEvenly premulGrad [c0, c1] =
      [init_stop_evenly 1 0 (prepareColor premulGrad c0) (prepareColor premulGrad c1),
       (zeroColor, prepareColor premulGrad c1)] := by
    norm_num [buildEvenly, goEvenly, List.range, List.range']
  simp only [List.mem_cons, List.mem_singleton, List.not_mem_nil, or_false] at ht
  rcases ht with rfl | rfl | rfl | rfl | rfl <;>
    · rw [evalTwoStop, evalEvenly, hb]
      norm_num [evenStopIndex, evalPair, twoStopFB, init_stop_evenly, scaleAdd, csub,
        zeroColor, Color4f.mk.injEq]

/-- Witness for C6 at concrete colors and `t = 1/4`. -/
theorem claim_C6_two_stop_equiv_witness :
    evalTwoStop false cRED cBLUE (1/4) = evalEvenly false [cRED, cBLUE] (1/4) :=
  claim_C6_two_stop_equiv false cRED cBLUE (1/4) (by norm_num)

/-! ### The evenly-spaced builder, characterized -/

theorem goEvenly_getD (premulGrad : Bool) (colors : List Color4f) (gapCount : ℚ) :
    ∀ (k s j : Nat),
      (goEvenly premulGrad colors gapCount (List.range' s k)
          (prepareColor premulGrad (colors.getD s default))).getD j (zeroColor, zeroColor) =
        if j < k then
          init_stop_evenly gapCount (s + j)
            (prepareColor premulGrad (colors.getD (s + j) default))
            (prepareColor premulGrad (colors.getD (s + j + 1) default))
        else if j = k then
          (zeroColor, prepareColor premulGrad (colors.getD (s + k) default))
        else (zeroColor, zeroColor) := by
  intro k
  induction k with
  | zero =>
    intro s j
    cases j with
    | zero => simp [goEvenly, List.range']
    | succ j' => simp [goEvenly, List.range', List.getD]
  | succ k ih =>
    intro s j
    rw [List.range'_succ]
    cases j with
    | zero => simp [goEvenly]
    | succ j' =>
      rw [goEvenly]
      simp only [List.getD_cons_succ]
      rw [ih (s + 1) j']
      by_cases h1 : j' < k
      · rw [if_pos h1, if_pos (by omega : j' + 1 < k + 1)]
        have e1 : s + 1 + j' = s + (j' + 1) := by omega
        rw [e1]
      · rw [if_neg h1]
        by_cases h2 : j' = k
        · rw [if_pos h2, if_neg (by omega : ¬(j' + 1 < k + 1)),
            if_pos (by omega : j' + 1 = k + 1)]
          have e1 : s + 1 + k = s + (k + 1) := by omega
          rw [e1]
        · rw [if_neg h2, if_neg (by omega : ¬(j' + 1 < k + 1)),
            if_neg (by omega : ¬(j' + 1 = k + 1))]

theorem buildEvenly_getD (premulGrad : Bool) (colors : List Color4f) (j : Nat) :
    (buildEvenly premulGrad colors).getD j (zeroColor, zeroColor) =
      if j < colors.length - 1 then
        init_stop_evenly ((colors.length : ℚ) - 1) j
          (prepareColor premulGrad (colors.getD j default))
          (prepareColor premulGrad (colors.getD (j + 1) default))
      else if j = colors.length - 1 then
        (zeroColor, prepareColor premulGrad (colors.getD (colors.length - 1) default))
      else (zeroColor, zeroColor) := by
  rw [buildEvenly, List.range_eq_range']
  have := goEvenly_getD premulGrad colors ((colors.length : ℚ) - 1) (colors.length - 1) 0 j
  simpa using this

/-- C7: with implicit positions and `n > 2`, stop `i < n-1` carries
`scale_i = (c[i+1] - c[i]) * (n-1)` and `bias_i = c[i] - scale_i * (i/(n-1))`
per channel (on the prepared colors), the final stop `n-1` is the constant
segment `(scale 0, bias c[n-1])`, and evaluation at any `t ≥ 1` yields the
last color. -/
theorem claim_C7_uniform_general (premulGrad : Bool) (colors : List Color4f)
    (i : Nat) (t : ℚ) (hn : 2 < colors.length) (hi : i < colors.length - 1) (ht : 1 ≤ t) :
    ((buildEvenly premulGrad colors).getD i (zeroColor, zeroColor)).1 =
      cscale ((colors.length : ℚ) - 1)
        (csub (prepareColor premulGrad (colors.getD (i + 1) default))
              (prepareColor premulGrad (colors.getD i default))) ∧
    ((buildEvenly premulGrad colors).getD i (zeroColor, zeroColor)).2 =
      csub (prepareColor premulGrad (colors.getD i default))
        (cscale ((i : ℚ) / ((colors.length : ℚ) - 1))
          ((buildEvenly premulGrad colors).getD i (zeroColor, zeroColor)).1) ∧
    (buildEvenly premulGrad colors).getD (colors.length - 1) (zeroColor, zeroColor) =
      (zeroColor, prepareColor premulGrad (colors.getD (colors.length - 1) default)) ∧
    evalEvenly premulGrad colors t =
      prepareColor premulGrad (colors.getD (colors.length - 1) default) := by
  have h1 := buildEvenly_getD premulGrad colors i
  rw [if_pos hi] at h1
  have h2 := buildEvenly_getD premulGrad colors (colors.length - 1)
  rw [if_neg (lt_irrefl _), if_pos rfl] at h2
  have hidx : evenStopIndex colors.length t = colors.length - 1 := by
    rw [evenStopIndex]
    have hgap : (0:ℚ) ≤ (colors.length : ℚ) - 1 := by
      have h3 : (2:ℚ) < (colors.length : ℚ) := by exact_mod_cast hn
      linarith
    have h0 : ((colors.length - 1 : ℕ) : ℤ) ≤ ⌊t * ((colors.length : ℚ) - 1)⌋ := by
      rw [Int.le_floor]
      have hmul : ((colors.length:ℚ) - 1) * 1 ≤ ((colors.length:ℚ) - 1) * t :=
        mul_le_mul_of_nonneg_left ht hgap
      push_cast [Nat.cast_sub (by omega : 1 ≤ colors.length)]
      linarith
    have h4 : colors.length - 1 ≤ Int.toNat ⌊t * ((colors.length : ℚ) - 1)⌋ := by
      have := Int.toNat_le_toNat h0
      simpa using this
    exact Nat.min_eq_right h4
  refine ⟨?_, ?_, h2, ?_⟩
  · rw [h1]
    simp only [init_stop_evenly, cscale, csub, Color4f.mk.injEq]
    refine ⟨by ring, by ring, by ring, by ring⟩
  · rw [h1]
    simp only [init_stop_evenly, cscale, csub, Color4f.mk.injEq]
    refine ⟨by ring, by ring, by ring, by ring⟩
  · rw [evalEvenly, hidx, h2]
    simp only [evalPair, scaleAdd, zeroColor, zero_mul, zero_add]

/-- Witness for C7: a 3-stop evenly spaced gradient evaluated at `t = 2`
yields the last color. -/
theorem claim_C7_uniform_general_witness :
    evalEvenly false [cRED, cGREEN, cBLUE] 2 = cBLUE := by
  have h := (claim_C7_uniform_general false [cRED, cGREEN, cBLUE] 1 2
    (by norm_num) (by norm_num) (by norm_num)).2.2.2
  simpa [prepareColor] using h


/-! ### The lookup-table builder, texel by texel -/

theorem writePixelVal_if (interp : Bool) (c : Color4f) :
    writePixelVal interp (if interp then premulColor c else c) = premulColor c := by
  cases interp <;> rfl

theorem writeRun_length (interp : Bool) (delta : Color4f) :
    ∀ (k idx : Nat) (c : Color4f) (T : List Color4f),
      (writeRun interp k idx c delta T).length = T.length
  | 0, _, _, _ => rfl
  | k + 1, idx, c, T => by
    rw [writeRun, writeRun_length interp delta k]
    exact List.length_set T idx _

theorem writeRun_getD_lt (interp : Bool) (delta d : Color4f) :
    ∀ (k idx : Nat) (c : Color4f) (T : List Color4f) (q : Nat), q < idx →
      (writeRun interp k idx c delta T).getD q d = T.getD q d
  | 0, _, _, _, _, _ => rfl
  | k + 1, idx, c, T, q, hq => by
    rw [writeRun, writeRun_getD_lt interp delta d k (idx + 1) _ _ q (by omega)]
    rw [List.getD_eq_getElem?_getD, List.getD_eq_getElem?_getD,
      List.getElem?_set_ne (by omega : idx ≠ q)]

theorem writeRun_getD_first (interp : Bool) (delta d : Color4f)
    (k idx : Nat) (c : Color4f) (T : List Color4f) (h : idx < T.length) :
    (writeRun interp (k + 1) idx c delta T).getD idx d = writePixelVal interp c := by
  rw [writeRun, writeRun_getD_lt interp delta d k (idx + 1) _ _ idx (by omega)]
  rw [List.getD_eq_getElem?_getD, List.getElem?_set_self h]
  rfl

theorem writeRun_getD_last (interp : Bool) (delta d : Color4f) :
    ∀ (k idx : Nat) (c : Color4f) (T : List Color4f), idx + k < T.length →
      (writeRun interp (k + 1) idx c delta T).getD (idx + k) d =
        writePixelVal interp (cadd c (cscale (k : ℚ) delta))
  | 0, idx, c, T, h => by
    have e : cadd c (cscale ((0 : ℕ) : ℚ) delta) = c := by
      simp [cadd, cscale]
    rw [Nat.add_zero, e]
    exact writeRun_getD_first interp delta d 0 idx c T (by simpa using h)
  | k + 1, idx, c, T, h => by
    rw [writeRun]
    have e : idx + (k + 1) = (idx + 1) + k := by omega
    rw [e, writeRun_getD_last interp delta d k (idx + 1) _ _
      (by rw [List.length_set]; omega)]
    have e2 : cadd (cadd c delta) (cscale ((k : ℕ) : ℚ) delta) =
        cadd c (cscale (((k + 1 : ℕ)) : ℚ) delta) := by
      simp only [cadd, cscale, Color4f.mk.injEq]
      push_cast
      refine ⟨by ring, by ring, by ring, by ring⟩
    rw [e2]

theorem bitmapLoop_cons_pos (g : CanonicalGradient) (interp : Bool) (i : Nat)
    (rest : List Nat) (P : Nat) (T : List Color4f) (h : P < texelIndex (getPos g i)) :
    bitmapLoop g interp (i :: rest) P T =
      bitmapLoop g interp rest (texelIndex (getPos g i))
        (writeRun interp (texelIndex (getPos g i) - P + 1) P
          (if interp then premulColor (g.colors.getD (i - 1) default)
           else g.colors.getD (i - 1) default)
          (cscale (1 / ((texelIndex (getPos g i) : ℚ) - (P : ℚ)))
            (csub
              (if interp then premulColor (g.colors.getD i default)
               else g.colors.getD i default)
              (if interp then premulColor (g.colors.getD (i - 1) default)
               else g.colors.getD (i - 1) default)))
          T) := by
  simp only [bitmapLoop, if_pos h]

theorem bitmapLoop_cons_neg (g : CanonicalGradient) (interp : Bool) (i : Nat)
    (rest : List Nat) (P : Nat) (T : List Color4f) (h : ¬ P < texelIndex (getPos g i)) :
    bitmapLoop g interp (i :: rest) P T =
      bitmapLoop g interp rest (texelIndex (getPos g i)) T := by
  simp only [bitmapLoop, if_neg h]

theorem bitmapLoop_length (g : CanonicalGradient) (interp : Bool) :
    ∀ (is : List Nat) (P : Nat) (T : List Color4f),
      ((bitmapLoop g interp is P T).2).length = T.length
  | [], _, _ => rfl
  | i :: rest, P, T => by
    by_cases h : P < texelIndex (getPos g i)
    · rw [bitmapLoop_cons_pos g interp i rest P T h,
        bitmapLoop_length g interp rest, writeRun_length]
    · rw [bitmapLoop_cons_neg g interp i rest P T h, bitmapLoop_length g interp rest]

theorem bitmapLoop_getD_lt (g : CanonicalGradient) (interp : Bool) (d : Color4f) :
    ∀ (is : List Nat) (P : Nat) (T : List Color4f) (q : Nat), q < P →
      (∀ i ∈ is, q < texelIndex (getPos g i)) →
      ((bitmapLoop g interp is P T).2).getD q d = T.getD q d
  | [], _, _, _, _, _ => rfl
  | i :: rest, P, T, q, hq, his => by
    by_cases h : P < texelIndex (getPos g i)
    · rw [bitmapLoop_cons_pos g interp i rest P T h,
        bitmapLoop_getD_lt g interp d rest _ _ q (his i (List.mem_cons_self i rest))
          (fun j hj => his j (List.mem_cons_of_mem i hj)),
        writeRun_getD_lt interp _ d _ P _ _ q hq]
    · rw [bitmapLoop_cons_neg g interp i rest P T h,
        bitmapLoop_getD_lt g interp d rest _ _ q (his i (List.mem_cons_self i rest))
          (fun j hj => his j (List.mem_cons_of_mem i hj))]

theorem bitmapLoop_append (g : CanonicalGradient) (interp : Bool) :
    ∀ (l1 l2 : List Nat) (P : Nat) (T : List Color4f),
      bitmapLoop g interp (l1 ++ l2) P T =
        bitmapLoop g interp l2 (bitmapLoop g interp l1 P T).1
          (bitmapLoop g interp l1 P T).2
  | [], l2, P, T => rfl
  | i :: rest, l2, P, T => by
    by_cases h : P < texelIndex (getPos g i)
    · rw [List.cons_append, bitmapLoop_cons_pos g interp i (rest ++ l2) P T h,
        bitmapLoop_cons_pos g interp i rest P T h, bitmapLoop_append g interp rest l2]
    · rw [List.cons_append, bitmapLoop_cons_neg g interp i (rest ++ l2) P T h,
        bitmapLoop_cons_neg g interp i rest P T h, bitmapLoop_append g interp rest l2]

theorem bitmapLoop_fst (g : CanonicalGradient) (interp : Bool) :
    ∀ (k s : Nat) (T : List Color4f),
      (bitmapLoop g interp (List.range' (s + 1) k) (texelIndex (getPos g s)) T).1 =
        texelIndex (getPos g (s + k))
  | 0, s, T => by simp [bitmapLoop, List.range']
  | k + 1, s, T => by
    rw [List.range'_succ]
    have e : s + (k + 1) = (s + 1) + k := by omega
    by_cases h : texelIndex (getPos g s) < texelIndex (getPos g (s + 1))
    · rw [bitmapLoop_cons_pos g interp (s + 1) _ _ T h, e]
      exact bitmapLoop_fst g interp k (s + 1) _
    · rw [bitmapLoop_cons_neg g interp (s + 1) _ _ T h, e]
      exact bitmapLoop_fst g interp k (s + 1) _

theorem texelIndex_mono {p q : ℚ} (h : p ≤ q) : texelIndex p ≤ texelIndex q := by
  unfold texelIndex
  have hf : ⌊p * 256⌋ ≤ ⌊q * 256⌋ := Int.floor_le_floor (by linarith)
  exact min_le_min (Int.toNat_le_toNat hf) (le_refl 255)

theorem texelIndex_zero : texelIndex 0 = 0 := by norm_num [texelIndex]

theorem texelIndex_one : texelIndex 1 = 255 := by norm_num [texelIndex]

/-- C8 counterexample: the canonical gradient `{R,G,B}` at `{0,0,1}` (a hard
stop at position 0, produced verbatim by the constructor) has texel 0 equal to
the premultiplied SECOND stop color G, not the first stop color R as the claim
requires of every valid canonical gradient. -/
theorem claim_C8_counterexample :
    canonicalize ⟨[cRED, cGREEN, cBLUE], some [0, 0, 1], TileMode.clamp, 0⟩ = gHard ∧
    (initLinearBitmap gHard).getD 0 default = premulColor cGREEN ∧
    premulColor cGREEN ≠ premulColor cRED := by
  refine ⟨?_, ?_, ?_⟩
  · norm_num [canonicalize, gHard, emittedUniform, emittedPositions, walkIndices,
      walkUniformFrom, walkFrom, currOf, skPin, tMin, tMax, nearlyEqual, skAbs, nearlyZero,
      List.range', cRED, cGREEN, cBLUE, CanonicalGradient.mk.injEq]
  · rw [initLinearBitmap]
    have e1 : List.range' 1 (gHard.colors.length - 1) = [1, 2] := rfl
    rw [e1]
    have hni1 : texelIndex (getPos gHard 1) = 0 := by
      norm_num [getPos, gHard, texelIndex]
    have hni2 : texelIndex (getPos gHard 2) = 255 := by
      norm_num [getPos, gHard, texelIndex]
    rw [bitmapLoop_cons_neg gHard _ 1 _ 0 _ (by rw [hni1]; exact lt_irrefl 0)]
    rw [hni1]
    rw [bitmapLoop_cons_pos gHard _ 2 _ 0 _ (by rw [hni2]; omega)]
    simp only [bitmapLoop]
    rw [writeRun_getD_first _ _ default _ 0 _ _ (by rw [List.length_replicate]; omega)]
    have hfb : gHard.gradFlags.testBit 0 = false := rfl
    rw [hfb]
    norm_num [writePixelVal, gHard, cGREEN, premulColor]
  · norm_num [premulColor, cGREEN, cRED, Color4f.mk.injEq]

/-- C8 amended: for a canonical gradient (positions nondecreasing, first 0,
last 1, `n ≥ 2`) the 256-texel table satisfies: texel 0 equals the
premultiplied first stop color PROVIDED the second stop maps to a positive
texel index (no hard stop collapsing onto texel 0), and texel 255 equals the
premultiplied last stop color PROVIDED the second-to-last stop maps below
texel 255; stop positions map to texels via
`texelIndex = min(floor(pos * 256), 255)`. -/
theorem claim_C8_amended (g : CanonicalGradient)
    (hn : 2 ≤ g.colors.length)
    (hmono : ∀ i j, i ≤ j → j < g.colors.length → getPos g i ≤ getPos g j)
    (h0 : getPos g 0 = 0) (h1 : getPos g (g.colors.length - 1) = 1) :
    (0 < texelIndex (getPos g 1) →
      (initLinearBitmap g).getD 0 default = premulColor (g.colors.getD 0 default)) ∧
    (texelIndex (getPos g (g.colors.length - 2)) < 255 →
      (initLinearBitmap g).getD 255 default =
        premulColor (g.colors.getD (g.colors.length - 1) default)) := by
  constructor
  · intro ha
    rw [initLinearBitmap]
    have hsplit : List.range' 1 (g.colors.length - 1) =
        1 :: List.range' 2 (g.colors.length - 2) := by
      have e1 : g.colors.length - 1 = (g.colors.length - 2) + 1 := by omega
      rw [e1, List.range'_succ]
    rw [hsplit, bitmapLoop_cons_pos g _ 1 _ 0 _ ha]
    have hrest : ∀ i ∈ List.range' 2 (g.colors.length - 2),
        0 < texelIndex (getPos g i) := by
      intro i hi
      rcases List.mem_range'_1.mp hi with ⟨h2, h3⟩
      have hle : getPos g 1 ≤ getPos g i := hmono 1 i (by omega) (by omega)
      exact lt_of_lt_of_le ha (texelIndex_mono hle)
    rw [bitmapLoop_getD_lt g _ default _ _ _ 0 ha hrest]
    rw [writeRun_getD_first _ _ default _ 0 _ _
      (by rw [List.length_replicate]; omega)]
    exact writePixelVal_if _ _
  · intro hb
    rw [initLinearBitmap]
    have hsplit : List.range' 1 (g.colors.length - 1) =
        List.range' 1 (g.colors.length - 2) ++ [g.colors.length - 1] := by
      have e1 : g.colors.length - 1 = (g.colors.length - 2) + 1 := by omega
      rw [e1, List.range'_1_concat]
      congr 1
      simp only [List.cons.injEq, and_true]
      omega
    rw [hsplit, bitmapLoop_append]
    have hfst : (bitmapLoop g (g.gradFlags.testBit 0) (List.range' 1 (g.colors.length - 2)) 0
        (List.replicate 256 default)).1 = texelIndex (getPos g (g.colors.length - 2)) := by
      have h00 : (0 : Nat) = texelIndex (getPos g 0) := by rw [h0, texelIndex_zero]
      have hbf := bitmapLoop_fst g (g.gradFlags.testBit 0) (g.colors.length - 2) 0
        (List.replicate 256 default)
      rw [Nat.zero_add, Nat.zero_add, ← h00] at hbf
      exact hbf
    have hTlen : ((bitmapLoop g (g.gradFlags.testBit 0) (List.range' 1 (g.colors.length - 2)) 0
        (List.replicate 256 default)).2).length = 256 := by
      rw [bitmapLoop_length, List.length_replicate]
    have hnext : texelIndex (getPos g (g.colors.length - 1)) = 255 := by
      rw [h1]; exact texelIndex_one
    rw [hfst]
    have hPlt : texelIndex (getPos g (g.colors.length - 2)) <
        texelIndex (getPos g (g.colors.length - 1)) := by
      rw [hnext]; exact hb
    rw [bitmapLoop_cons_pos g _ (g.colors.length - 1) [] _ _ hPlt]
    simp only [bitmapLoop]
    rw [hnext]
    have hex : ∃ k, 255 = texelIndex (getPos g (g.colors.length - 2)) + k := by
      refine ⟨255 - texelIndex (getPos g (g.colors.length - 2)), ?_⟩
      omega
    obtain ⟨k, hQ⟩ := hex
    have hkpos : 0 < k := by omega
    rw [hQ]
    simp only [Nat.add_sub_cancel_left]
    rw [writeRun_getD_last _ _ default k _ _ _ (by rw [hTlen]; omega)]
    have hkq : ((texelIndex (getPos g (g.colors.length - 2)) + k : ℕ) : ℚ) -
        ((texelIndex (getPos g (g.colors.length - 2)) : ℕ) : ℚ) = (k : ℚ) := by
      push_cast
      ring
    have hkne : ((k : ℕ) : ℚ) ≠ 0 := by
      have : (0 : ℚ) < (k : ℚ) := by exact_mod_cast hkpos
      linarith
    have hcalc : ∀ x y : Color4f,
        cadd x (cscale ((k : ℕ) : ℚ)
          (cscale (1 / (((texelIndex (getPos g (g.colors.length - 2)) + k : ℕ) : ℚ) -
              ((texelIndex (getPos g (g.colors.length - 2)) : ℕ) : ℚ)))
            (csub y x))) = y := by
      intro x y
      obtain ⟨xr, xg, xb, xa⟩ := x
      obtain ⟨yr, yg, yb, ya⟩ := y
      simp only [cadd, cscale, csub, Color4f.mk.injEq, hkq]
      refine ⟨?_, ?_, ?_, ?_⟩ <;> field_simp
    rw [hcalc]
    exact writePixelVal_if _ _

/-- Witness for C8 amended: a two-stop evenly spaced gradient has texel 0 =
premultiplied first color and texel 255 = premultiplied last color. -/
theorem claim_C8_amended_witness :
    (initLinearBitmap gUniform2).getD 0 default = premulColor cRED ∧
    (initLinearBitmap gUniform2).getD 255 default = premulColor cBLUE := by
  have hmono : ∀ i j : Nat, i ≤ j → j < gUniform2.colors.length →
      getPos gUniform2 i ≤ getPos gUniform2 j := by
    intro i j hij hj
    have hj2 : j < 2 := by simpa [gUniform2] using hj
    interval_cases j <;> interval_cases i <;> norm_num [getPos, gUniform2]
  have h := claim_C8_amended gUniform2 (by norm_num [gUniform2]) hmono
    (by norm_num [getPos, gUniform2]) (by norm_num [getPos, gUniform2])
  constructor
  · have h1 := h.1 (by norm_num [getPos, gUniform2, texelIndex])
    simpa [gUniform2] using h1
  · have h2 := h.2 (by norm_num [getPos, gUniform2, texelIndex])
    simpa [gUniform2] using h2


/-! ### The gradient-table cache -/

theorem cacheFind_cacheAdd (entries : List (List KeyWord × List Color4f))
    (k : List KeyWord) (v : List Color4f) :
    cacheFind (cacheAdd entries k v) k = some v := by
  rw [cacheAdd]
  split
  · next h =>
    have hne : entries ≠ [] := by
      intro he
      subst he
      simp at h
    rw [List.dropLast_cons_of_ne_nil hne]
    simp [cacheFind]
  · simp [cacheFind]

/-- C9: cache key determinism and dedupe — two canonical gradients with the
same color count, the same effective positions (relevant only when the count
exceeds 2: positions enter the key only then), and the same flags produce
identical keys for the same color payload and pixel encoding; and a second
`findOrBuild` with the same key returns the cached table from the first call,
with no rebuild (`false` flag), leaving the cache untouched. -/
theorem claim_C9_cache_key (g1 g2 : CanonicalGradient) (colors : List Color4f)
    (colorType : Nat) (entries : List (List KeyWord × List Color4f))
    (k : List KeyWord) (b1 b2 : Unit → List Color4f)
    (hlen : g1.colors.length = g2.colors.length)
    (hpos : 2 < g1.colors.length → ∀ i, 0 < i → i < g1.colors.length →
      getPos g1 i = getPos g2 i)
    (hflags : g1.gradFlags = g2.gradFlags) :
    buildGradientKey g1 colors colorType = buildGradientKey g2 colors colorType ∧
    findOrBuild (findOrBuild entries k b1).1 k b2 =
      ((findOrBuild entries k b1).1, (findOrBuild entries k b1).2.1, false) := by
  constructor
  · rw [buildGradientKey, buildGradientKey, hlen, hflags]
    by_cases h2 : 2 < g2.colors.length
    · rw [if_pos h2, if_pos h2]
      have hmap : (List.range' 1 (g2.colors.length - 1)).map
            (fun i => KeyWord.posBits (getPos g1 i)) =
          (List.range' 1 (g2.colors.length - 1)).map
            (fun i => KeyWord.posBits (getPos g2 i)) := by
        apply List.map_congr_left
        intro i hi
        rcases List.mem_range'_1.mp hi with ⟨ha, hb⟩
        have := hpos (by omega) i (by omega) (by omega)
        rw [this]
      rw [hmap]
    · rw [if_neg h2, if_neg h2]
  · cases hc : cacheFind entries k with
    | some t => simp only [findOrBuild, hc]
    | none => simp only [findOrBuild, hc, cacheFind_cacheAdd]

/-- Witness for C9 at a concrete gradient, an empty cache and two distinct
build functions: the second lookup returns the first build, no rebuild. -/
theorem claim_C9_cache_key_witness :
    buildGradientKey gUniform2 [cRED, cBLUE] 0 =
      buildGradientKey gUniform2 [cRED, cBLUE] 0 ∧
    findOrBuild (findOrBuild [] (buildGradientKey gUniform2 [cRED, cBLUE] 0)
        (fun _ => [cRED])).1 (buildGradientKey gUniform2 [cRED, cBLUE] 0)
        (fun _ => [cBLUE]) =
      ((findOrBuild [] (buildGradientKey gUniform2 [cRED, cBLUE] 0)
          (fun _ => [cRED])).1,
       (findOrBuild [] (buildGradientKey gUniform2 [cRED, cBLUE] 0)
          (fun _ => [cRED])).2.1, false) :=
  claim_C9_cache_key gUniform2 gUniform2 [cRED, cBLUE] 0 []
    (buildGradientKey gUniform2 [cRED, cBLUE] 0) (fun _ => [cRED]) (fun _ => [cBLUE])
    rfl (fun _ _ _ _ => rfl) rfl

end SkGradient
